import Mathlib

/-!
# Verification of `mapbox::base::WeakPtr` (mapbox-base, `weak.hpp`)

Shallow embedding of the weak-pointer library from
`src/mapbox/weak/include/mapbox/weak.hpp`.

Modelling choices:

* `WeakPtrSharedData` (the Validity State) holds the liveness flag
  `valid_` and, in place of the `std::shared_timed_mutex`, an explicit
  count of currently held shared (read) locks.  `invalidate()` acquires
  the mutex exclusively, so in the sequential interleaving model it can
  only fire when `readers = 0`.
* The reference-counted heap of shared-data objects
  (`std::shared_ptr` / `std::weak_ptr`) is a list of slots; a slot is
  `none` once the last strong reference died and the object was freed.
  Slot indices are never reused (allocation only appends), matching the
  fact that a `std::weak_ptr` to a dead object can never start pointing
  to a fresh one.
* A `WeakRef` (`std::weak_ptr<WeakPtrSharedData>`) is `Option Nat`:
  `none` is the empty weak pointer (default constructed or moved-from),
  `some i` points at slot `i`.  `weak_.lock()` succeeds iff the slot is
  still occupied.
* Raw pointers `Object*` are `Option α` with `none` for `nullptr`.
* Operations that touch the mutex (`lock`, guard destruction, factory
  destruction) are heap transformers.
-/

namespace Mapbox

/-- The Validity State `internal::WeakPtrSharedData`: liveness flag plus
a reader/writer lock, the latter modelled by its shared-hold count. -/
structure WeakPtrSharedData where
  valid : Bool
  readers : Nat
deriving Repr, DecidableEq

namespace WeakPtrSharedData

/-- `WeakPtrSharedData()` — flag initialised `true`, no lock held. -/
def init : WeakPtrSharedData := ⟨true, 0⟩

/-- `sharedLock()` — `mutex_.lock_shared()`. -/
def sharedLock (s : WeakPtrSharedData) : WeakPtrSharedData :=
  { s with readers := s.readers + 1 }

/-- `sharedUnlock()` — `mutex_.unlock_shared()`. -/
def sharedUnlock (s : WeakPtrSharedData) : WeakPtrSharedData :=
  { s with readers := s.readers - 1 }

/-- `invalidate()` — exclusively locks the mutex and sets `valid_ = false`.
The exclusive acquisition (which blocks until `readers = 0`) is a
precondition of the corresponding step, not part of the data change. -/
def invalidate (s : WeakPtrSharedData) : WeakPtrSharedData :=
  { s with valid := false }

end WeakPtrSharedData

/-- The heap of reference-counted `WeakPtrSharedData` objects.  Slot
`i = none` means the object has been destroyed (its last
`std::shared_ptr` died). -/
structure Heap where
  slots : List (Option WeakPtrSharedData)
deriving Repr, DecidableEq

namespace Heap

/-- Dereference slot `i`; `none` when freed or out of range. -/
def get (h : Heap) (i : Nat) : Option WeakPtrSharedData :=
  h.slots.getD i none

/-- Overwrite slot `i` with live data `s`. -/
def set (h : Heap) (i : Nat) (s : WeakPtrSharedData) : Heap :=
  ⟨h.slots.set i (some s)⟩

/-- Destroy the object in slot `i` (strong reference count hit zero). -/
def free (h : Heap) (i : Nat) : Heap :=
  ⟨h.slots.set i none⟩

def size (h : Heap) : Nat := h.slots.length

/-- Append a freshly constructed `WeakPtrSharedData` (index `h.size`). -/
def alloc (h : Heap) : Heap :=
  ⟨h.slots ++ [some WeakPtrSharedData.init]⟩

end Heap

/-- `internal::WeakRef = std::weak_ptr<WeakPtrSharedData>`: `none` is the
empty weak pointer, `some i` observes heap slot `i`. -/
def WeakRef : Type := Option Nat
deriving instance Repr, DecidableEq for WeakRef

/-- `weak_.lock()`: yields the slot index (a `StrongRef`) iff the weak
pointer is non-empty and the object still exists. -/
def WeakRef.lockRef (w : WeakRef) (h : Heap) : Option Nat :=
  match w with
  | none => none
  | some i => if (h.get i).isSome then some i else none

/-- `WeakPtrGuard`: holds an optional `StrongRef` (`strong_`); destruction
releases the shared lock if the reference is non-empty. -/
structure WeakPtrGuard where
  strong : Option Nat
deriving Repr, DecidableEq

/-- `~WeakPtrGuard()`: `if (strong_) strong_->sharedUnlock();`. -/
def WeakPtrGuard.release (g : WeakPtrGuard) (h : Heap) : Heap :=
  match g.strong with
  | none => h
  | some i =>
    match h.get i with
    | some s => h.set i s.sharedUnlock
    | none => h

/-- `internal::WeakPtrBase<Object>`: the weak link `weak_` plus the raw
typed pointer `ptr_` (`none` = `nullptr`). -/
structure WeakPtrBase (α : Type) where
  weak : Option Nat
  ptr : Option α
deriving Repr, DecidableEq

/-- `WeakPtr<Object>` adds only `operator->` over `WeakPtrBase`. -/
abbrev WeakPtr (α : Type) : Type := WeakPtrBase α

namespace WeakPtrBase

/-- `WeakPtrBase() = default`: empty `weak_`, `ptr_{}` (null). -/
def defaultCtor (α : Type) : WeakPtrBase α := ⟨none, none⟩

/-- Value left behind by the move constructor / move assignment: the
`std::weak_ptr` member is emptied, the raw pointer member is a scalar
and merely copied. -/
def movedFrom (p : WeakPtrBase α) : WeakPtrBase α := ⟨none, p.ptr⟩

/-- The converting constructor `WeakPtrBase(WeakPtrBase<U>&&)`:
takes the link and upcasts the stored pointer (`static_cast<Object*>`,
which maps null to null). -/
def convert (castPtr : α → β) (p : WeakPtrBase α) : WeakPtrBase β :=
  ⟨p.weak, p.ptr.map castPtr⟩

/-- `WeakPtrBase::lock()`: try to upgrade `weak_`; on success take the
shared lock, keep it inside the returned guard if the flag is still
`true`, otherwise release it at once and return an empty guard. -/
def lock (p : WeakPtrBase α) (h : Heap) : WeakPtrGuard × Heap :=
  match WeakRef.lockRef p.weak h with
  | none => (⟨none⟩, h)
  | some i =>
    match h.get i with
    | none => (⟨none⟩, h)
    | some s =>
      let s1 := s.sharedLock
      if s1.valid then (⟨some i⟩, h.set i s1)
      else (⟨none⟩, h.set i s1.sharedUnlock)

/-- `WeakPtrBase::expired()`: `true` iff the upgrade fails or the flag
is `false`. -/
def expired (p : WeakPtrBase α) (h : Heap) : Bool :=
  match WeakRef.lockRef p.weak h with
  | none => true
  | some i =>
    match h.get i with
    | none => true
    | some s => !s.valid

/-- `explicit operator bool()`: `!expired()`. -/
def toBool (p : WeakPtrBase α) (h : Heap) : Bool :=
  !p.expired h

/-- `WeakPtrBase::object()`: the raw pointer if the upgrade succeeds and
the flag is still `true`, else null.  (Does not itself take the lock.) -/
def object (p : WeakPtrBase α) (h : Heap) : Option α :=
  match WeakRef.lockRef p.weak h with
  | none => none
  | some i =>
    match h.get i with
    | none => none
    | some s => if s.valid then p.ptr else none

/-- `WeakPtr::operator->()`: returns `object()`; the body first runs
`assert(ptr)` on that result. -/
def arrow (p : WeakPtrBase α) (h : Heap) : Option α :=
  p.object h

/-- The `assert(ptr)` inside `operator->`: holds iff `object()` is
non-null. -/
def arrowAssert (p : WeakPtrBase α) (h : Heap) : Bool :=
  (p.object h).isSome

end WeakPtrBase

/-- `WeakPtrFactory<Object>`: strong owner of one Validity State slot
plus the raw pointer to the wrapped object. -/
structure WeakPtrFactory (α : Type) where
  strong : Nat
  obj : Option α
deriving Repr, DecidableEq

namespace WeakPtrFactory

/-- `WeakPtrFactory(Object* obj)`: `make_shared<WeakPtrSharedData>()`
allocates a fresh Validity State; `obj_` stores the raw pointer. -/
def create (obj : Option α) (h : Heap) : WeakPtrFactory α × Heap :=
  (⟨h.size, obj⟩, h.alloc)

/-- `makeWeakPtr()`: a `WeakPtr` holding this factory's weak link and
raw pointer. -/
def makeWeakPtr (f : WeakPtrFactory α) : WeakPtr α :=
  ⟨some f.strong, f.obj⟩

/-- `~WeakPtrFactory()`: `strong_->invalidate()`.  The exclusive-lock
blocking is the precondition `readers = 0` at the step level. -/
def destruct (f : WeakPtrFactory α) (h : Heap) : Heap :=
  match h.get f.strong with
  | none => h
  | some s => h.set f.strong s.invalidate

end WeakPtrFactory

/-- The closure returned by `WeakPtrFactory::makeWeakMethod`, applied to
one call: it captures a freshly minted `WeakPtr` and the member pointer.
The member function is modelled as a transformer `method : α → ε → ε`
of an external environment `ε` (the call's arguments are folded into
`method`, i.e. they are forwarded to it unchanged).  The body is
`guard = weakPtr.lock(); if (obj = weakPtr.object()) (obj->*method)(...);`
followed by the guard's destruction at the end of the call. -/
def weakMethodInvoke (wp : WeakPtr α) (method : α → ε → ε)
    (h : Heap) (env : ε) : Heap × ε :=
  let r := wp.lock h
  let envAfter :=
    match wp.object r.2 with
    | some obj => method obj env
    | none => env
  (r.1.release r.2, envAfter)

/-- The point of view of the spec's §4.3 description of `lock()`,
written from its words: if the Validity State no longer exists, return
an empty Guard; if it exists, acquire its read-lock; if still valid,
return a Guard carrying that hold; otherwise release the lock
immediately and return an empty Guard. -/
def WeakPtrBase.lockSpec (p : WeakPtrBase α) (h : Heap) : WeakPtrGuard × Heap :=
  match p.weak with
  | none => (⟨none⟩, h)
  | some i =>
    match h.get i with
    | none => (⟨none⟩, h)
    | some s =>
      let held := s.sharedLock
      if held.valid then (⟨some i⟩, h.set i held)
      else (⟨none⟩, h.set i held.sharedUnlock)

/-- The named operations of `WeakPtrSharedData` that mutate it. -/
inductive SDOp
  | sharedLock
  | sharedUnlock
  | invalidate
deriving Repr, DecidableEq

def SDOp.apply : SDOp → WeakPtrSharedData → WeakPtrSharedData
  | .sharedLock, s => s.sharedLock
  | .sharedUnlock, s => s.sharedUnlock
  | .invalidate, s => s.invalidate

/-- `true` when slot `i` can never again be observed valid: the object
is gone or its liveness flag is `false`. -/
def Heap.deadAt (h : Heap) (i : Nat) : Bool :=
  match h.get i with
  | none => true
  | some s => !s.valid

/-- One interleaving step of the system: some thread takes or releases
the shared lock, a factory destructor completes `invalidate()` (which
requires the exclusive lock, hence no outstanding readers), the last
strong reference to a slot dies and the slot is freed, or a new factory
allocates a fresh Validity State. -/
inductive Step : Heap → Heap → Prop
  | sharedLock (h : Heap) (i : Nat) (s : WeakPtrSharedData) :
      h.get i = some s → Step h (h.set i s.sharedLock)
  | sharedUnlock (h : Heap) (i : Nat) (s : WeakPtrSharedData) :
      h.get i = some s → Step h (h.set i s.sharedUnlock)
  | invalidate (h : Heap) (i : Nat) (s : WeakPtrSharedData) :
      h.get i = some s → s.readers = 0 → Step h (h.set i s.invalidate)
  | dealloc (h : Heap) (i : Nat) :
      Step h (h.free i)
  | alloc (h : Heap) :
      Step h h.alloc

/-- Zero or more interleaving steps. -/
abbrev Reach : Heap → Heap → Prop := Relation.ReflTransGen Step

namespace Heap

theorem lt_size_of_get_eq_some {h : Heap} {i : Nat} {s : WeakPtrSharedData}
    (hget : h.get i = some s) : i < h.size := by
  by_contra hge
  have : h.slots.getD i none = none := by
    unfold Heap.get at hget
    have : h.slots.length ≤ i := le_of_not_lt (fun hlt => hge (by exact hlt))
    simp [List.getD_eq_getElem?_getD, List.getElem?_eq_none this]
  rw [Heap.get] at hget
  rw [this] at hget
  exact Option.noConfusion hget

theorem get_set_self {h : Heap} {i : Nat} (s : WeakPtrSharedData)
    (hlt : i < h.size) : (h.set i s).get i = some s := by
  unfold Heap.get Heap.set
  simp [List.getD_eq_getElem?_getD, List.getElem?_set_self hlt]

theorem get_set_ne {h : Heap} {i j : Nat} (s : WeakPtrSharedData)
    (hne : i ≠ j) : (h.set i s).get j = h.get j := by
  unfold Heap.get Heap.set
  simp [List.getD_eq_getElem?_getD, List.getElem?_set_ne hne]

theorem get_free_self (h : Heap) (i : Nat) : (h.free i).get i = none := by
  unfold Heap.get Heap.free
  rcases lt_or_ge i h.slots.length with hlt | hge
  · simp [List.getD_eq_getElem?_getD, List.getElem?_set_self hlt]
  · have hlen : (h.slots.set i none).length ≤ i := by simpa using hge
    simp [List.getD_eq_getElem?_getD, List.getElem?_eq_none hlen]

theorem get_free_ne {h : Heap} {i j : Nat} (hne : i ≠ j) :
    (h.free i).get j = h.get j := by
  unfold Heap.get Heap.free
  simp [List.getD_eq_getElem?_getD, List.getElem?_set_ne hne]

theorem get_alloc_lt {h : Heap} {i : Nat} (hlt : i < h.size) :
    h.alloc.get i = h.get i := by
  unfold Heap.get Heap.alloc
  simp [List.getD_eq_getElem?_getD, List.getElem?_append_left hlt]

theorem get_alloc_self (h : Heap) :
    h.alloc.get h.size = some WeakPtrSharedData.init := by
  unfold Heap.get Heap.alloc Heap.size
  simp [List.getD_eq_getElem?_getD]

theorem size_set (h : Heap) (i : Nat) (s : WeakPtrSharedData) :
    (h.set i s).size = h.size := by
  unfold Heap.size Heap.set
  simp

theorem size_free (h : Heap) (i : Nat) : (h.free i).size = h.size := by
  unfold Heap.size Heap.free
  simp

theorem size_alloc (h : Heap) : h.alloc.size = h.size + 1 := by
  unfold Heap.size Heap.alloc
  simp

/-- Writing back the value a slot already holds does not change the heap. -/
theorem set_get_self {h : Heap} {i : Nat} {s : WeakPtrSharedData}
    (hget : h.get i = some s) : h.set i s = h := by
  unfold Heap.get at hget
  have hidx : h.slots[i]? = some (some s) := by
    rcases hmem : h.slots[i]? with _ | v
    · simp [List.getD_eq_getElem?_getD, hmem] at hget
    · simp [List.getD_eq_getElem?_getD, hmem] at hget
      rw [hget]
  unfold Heap.set
  congr 1
  apply List.ext_getElem?
  intro j
  rcases eq_or_ne i j with rfl | hij
  · rw [List.getElem?_set_self (by rw [List.getElem?_eq_some] at hidx; exact hidx.1), hidx]
  · simp [List.getElem?_set_ne hij]

/-- Consecutive writes to the same slot: the second wins. -/
theorem set_set (h : Heap) (i : Nat) (a b : WeakPtrSharedData) :
    (h.set i a).set i b = h.set i b := by
  unfold Heap.set
  rw [List.set_set]

end Heap

theorem step_size_le {h h' : Heap} (hstep : Step h h') : h.size ≤ h'.size := by
  cases hstep with
  | sharedLock i s hget => rw [Heap.size_set]
  | sharedUnlock i s hget => rw [Heap.size_set]
  | invalidate i s hget hr => rw [Heap.size_set]
  | dealloc i => rw [Heap.size_free]
  | alloc => rw [Heap.size_alloc]; exact Nat.le_succ _

theorem reach_size_le {h h' : Heap} (hreach : Reach h h') : h.size ≤ h'.size := by
  induction hreach with
  | refl => exact le_refl _
  | tail _ hstep ih => exact le_trans ih (step_size_le hstep)

theorem step_deadAt_preserved {h h' : Heap} {i : Nat} (hstep : Step h h')
    (hlt : i < h.size) (hdead : h.deadAt i = true) : h'.deadAt i = true := by
  cases hstep with
  | sharedLock j s hget =>
    rcases eq_or_ne j i with rfl | hne
    · unfold Heap.deadAt at hdead ⊢
      rw [hget] at hdead
      rw [Heap.get_set_self _ (Heap.lt_size_of_get_eq_some hget)]
      simpa [WeakPtrSharedData.sharedLock] using hdead
    · unfold Heap.deadAt at hdead ⊢
      rw [Heap.get_set_ne _ hne]
      exact hdead
  | sharedUnlock j s hget =>
    rcases eq_or_ne j i with rfl | hne
    · unfold Heap.deadAt at hdead ⊢
      rw [hget] at hdead
      rw [Heap.get_set_self _ (Heap.lt_size_of_get_eq_some hget)]
      simpa [WeakPtrSharedData.sharedUnlock] using hdead
    · unfold Heap.deadAt at hdead ⊢
      rw [Heap.get_set_ne _ hne]
      exact hdead
  | invalidate j s hget hr =>
    rcases eq_or_ne j i with rfl | hne
    · unfold Heap.deadAt
      rw [Heap.get_set_self _ (Heap.lt_size_of_get_eq_some hget)]
      simp [WeakPtrSharedData.invalidate]
    · unfold Heap.deadAt at hdead ⊢
      rw [Heap.get_set_ne _ hne]
      exact hdead
  | dealloc j =>
    rcases eq_or_ne j i with rfl | hne
    · unfold Heap.deadAt
      rw [Heap.get_free_self]
    · unfold Heap.deadAt at hdead ⊢
      rw [Heap.get_free_ne hne]
      exact hdead
  | alloc =>
    unfold Heap.deadAt at hdead ⊢
    rw [Heap.get_alloc_lt hlt]
    exact hdead

theorem reach_deadAt_preserved {h h' : Heap} {i : Nat} (hreach : Reach h h')
    (hlt : i < h.size) (hdead : h.deadAt i = true) : h'.deadAt i = true := by
  induction hreach with
  | refl => exact hdead
  | tail hr hstep ih =>
    exact step_deadAt_preserved hstep (lt_of_lt_of_le hlt (reach_size_le hr)) ih

namespace WeakPtrBase

/-- A handle whose link names slot `i` reports expired exactly when the
slot is dead. -/
theorem expired_eq_deadAt {p : WeakPtrBase α} {h : Heap} {i : Nat}
    (hw : p.weak = some i) : p.expired h = h.deadAt i := by
  unfold expired WeakRef.lockRef Heap.deadAt
  rw [hw]
  rcases hget : h.get i with _ | s
  · simp [hget]
  · simp [hget]

/-- A handle with an empty link is expired everywhere. -/
theorem expired_of_weak_none {p : WeakPtrBase α} {h : Heap}
    (hw : p.weak = none) : p.expired h = true := by
  unfold expired WeakRef.lockRef
  rw [hw]

/-- On a dead slot, `lock()` returns an empty guard and, net of the
transient shared-lock round trip, leaves the heap unchanged. -/
theorem lock_of_deadAt {p : WeakPtrBase α} {h : Heap} {i : Nat}
    (hw : p.weak = some i) (hdead : h.deadAt i = true) :
    p.lock h = (⟨none⟩, h) := by
  unfold lock WeakRef.lockRef
  rw [hw]
  unfold Heap.deadAt at hdead
  rcases hget : h.get i with _ | s
  · simp [hget]
  · rw [hget] at hdead
    have hval : s.valid = false := by simpa using hdead
    have hsame : s.sharedLock.sharedUnlock = s := by
      unfold WeakPtrSharedData.sharedLock WeakPtrSharedData.sharedUnlock
      simp
    simp only [hget, Option.isSome_some, if_true]
    rw [if_neg (by simp [WeakPtrSharedData.sharedLock, hval])]
    rw [hsame, Heap.set_get_self hget]

/-- A handle with an empty link locks to an empty guard, untouched heap. -/
theorem lock_of_weak_none {p : WeakPtrBase α} {h : Heap}
    (hw : p.weak = none) : p.lock h = (⟨none⟩, h) := by
  unfold lock WeakRef.lockRef
  rw [hw]

/-- On a dead slot, `object()` is null. -/
theorem object_of_deadAt {p : WeakPtrBase α} {h : Heap} {i : Nat}
    (hw : p.weak = some i) (hdead : h.deadAt i = true) :
    p.object h = none := by
  unfold object WeakRef.lockRef
  rw [hw]
  unfold Heap.deadAt at hdead
  rcases hget : h.get i with _ | s
  · simp [hget]
  · rw [hget] at hdead
    have hval : s.valid = false := by simpa using hdead
    simp [hget, hval]

/-- A handle with an empty link has a null `object()`. -/
theorem object_of_weak_none {p : WeakPtrBase α} {h : Heap}
    (hw : p.weak = none) : p.object h = none := by
  unfold object WeakRef.lockRef
  rw [hw]

/-- Full case analysis of `lock()`: either it returns an empty guard and
(net of the transient shared-lock round trip) leaves the heap unchanged
— empty link or dead slot — or the slot was observed valid and the
guard carries it, the heap recording one more shared hold. -/
theorem lock_cases (p : WeakPtrBase α) (h : Heap) :
    (p.lock h = (⟨none⟩, h) ∧ ∀ i, p.weak = some i → h.deadAt i = true) ∨
    (∃ i s, p.weak = some i ∧ h.get i = some s ∧ s.valid = true ∧
      p.lock h = (⟨some i⟩, h.set i s.sharedLock)) := by
  rcases hw : p.weak with _ | i
  · left
    refine ⟨lock_of_weak_none hw, ?_⟩
    intro j hj
    exact Option.noConfusion hj
  · rcases hget : h.get i with _ | s
    · left
      have hdead : h.deadAt i = true := by
        unfold Heap.deadAt
        rw [hget]
      refine ⟨lock_of_deadAt hw hdead, ?_⟩
      intro j hj
      have hij : i = j := by injection hj
      subst hij
      exact hdead
    · by_cases hv : s.valid = true
      · right
        refine ⟨i, s, rfl, hget, hv, ?_⟩
        unfold lock WeakRef.lockRef
        rw [hw]
        simp only [hget, Option.isSome_some, if_true]
        rw [if_pos (by simpa [WeakPtrSharedData.sharedLock] using hv)]
      · left
        have hdead : h.deadAt i = true := by
          unfold Heap.deadAt
          rw [hget]
          simpa using hv
        refine ⟨lock_of_deadAt hw hdead, ?_⟩
        intro j hj
        have hij : i = j := by injection hj
        subst hij
        exact hdead

/-- Destroying the guard returned by `lock()` restores the heap exactly. -/
theorem release_lock (p : WeakPtrBase α) (h : Heap) :
    ((p.lock h).1).release (p.lock h).2 = h := by
  rcases lock_cases p h with ⟨heq, _⟩ | ⟨i, s, hw, hget, hv, heq⟩
  · rw [heq]
    rfl
  · rw [heq]
    have hget' : (h.set i s.sharedLock).get i = some s.sharedLock :=
      Heap.get_set_self _ (Heap.lt_size_of_get_eq_some hget)
    have hrel : WeakPtrGuard.release ⟨some i⟩ (h.set i s.sharedLock)
        = (h.set i s.sharedLock).set i s.sharedLock.sharedUnlock := by
      simp [WeakPtrGuard.release, hget']
    have hsame : s.sharedLock.sharedUnlock = s := by
      unfold WeakPtrSharedData.sharedLock WeakPtrSharedData.sharedUnlock
      simp
    rw [hrel, Heap.set_set, hsame, Heap.set_get_self hget]

/-- `object()` queried on the heap as left by `lock()` agrees with
`object()` on the pre-lock heap. -/
theorem object_lock (p : WeakPtrBase α) (h : Heap) :
    p.object (p.lock h).2 = p.object h := by
  rcases lock_cases p h with ⟨heq, _⟩ | ⟨i, s, hw, hget, hv, heq⟩
  · rw [heq]
  · rw [heq]
    have hget' : (h.set i s.sharedLock).get i = some s.sharedLock :=
      Heap.get_set_self _ (Heap.lt_size_of_get_eq_some hget)
    have hvl : s.sharedLock.valid = true := by
      simpa [WeakPtrSharedData.sharedLock] using hv
    unfold object WeakRef.lockRef
    rw [hw]
    simp [hget, hget', hv, hvl]

end WeakPtrBase

/-- The factory destructor leaves its own slot dead. -/
theorem WeakPtrFactory.deadAt_destruct (f : WeakPtrFactory α) (h : Heap) :
    (f.destruct h).deadAt f.strong = true := by
  unfold WeakPtrFactory.destruct
  rcases hget : h.get f.strong with _ | s
  · unfold Heap.deadAt
    rw [hget]
  · unfold Heap.deadAt
    rw [Heap.get_set_self _ (Heap.lt_size_of_get_eq_some hget)]
    simp [WeakPtrSharedData.invalidate]

/-- The factory destructor does not change the heap's size. -/
theorem WeakPtrFactory.size_destruct (f : WeakPtrFactory α) (h : Heap) :
    (f.destruct h).size = h.size := by
  unfold WeakPtrFactory.destruct
  rcases hget : h.get f.strong with _ | s
  · rfl
  · rw [Heap.size_set]

/-- C1: after the factory destructor has returned (it invalidates the
shared Validity State, having waited out all readers), every handle
linked to that factory — created before or after, directly or by
copy/move/covariant conversion, hence any handle whose link names the
factory slot — reports `expired() = true`, `lock()` yields an empty
Guard, and `object()` is null, in every heap reachable by further
system activity: the valid state is never observable again. -/
theorem claim1_factory_destruction_permanent (α β : Type) (obj : Option α)
    (h0 : Heap) (f : WeakPtrFactory α) (h1 : Heap)
    (hcreate : WeakPtrFactory.create obj h0 = (f, h1))
    (p : WeakPtrBase β) (hp : p.weak = some f.strong)
    (hmid : Heap) (hreach1 : Reach h1 hmid)
    (s : WeakPtrSharedData) (hs : hmid.get f.strong = some s)
    (hreaders : s.readers = 0)
    (h2 : Heap) (hreach2 : Reach (f.destruct hmid) h2) :
    p.expired h2 = true ∧ p.lock h2 = (⟨none⟩, h2) ∧ p.object h2 = none := by
  have hfh : f = (⟨h0.size, obj⟩ : WeakPtrFactory α) ∧ h1 = h0.alloc := by
    have h' := hcreate.symm
    unfold WeakPtrFactory.create at h'
    exact ⟨congrArg Prod.fst h', congrArg Prod.snd h'⟩
  have hlt1 : f.strong < h1.size := by
    rw [hfh.1, hfh.2, Heap.size_alloc]
    exact Nat.lt_succ_of_le (le_refl _)
  have hltmid : f.strong < hmid.size := lt_of_lt_of_le hlt1 (reach_size_le hreach1)
  have hltd : f.strong < (f.destruct hmid).size := by
    rw [WeakPtrFactory.size_destruct]
    exact hltmid
  have hdead : h2.deadAt f.strong = true :=
    reach_deadAt_preserved hreach2 hltd (WeakPtrFactory.deadAt_destruct f hmid)
  exact ⟨by rw [WeakPtrBase.expired_eq_deadAt hp]; exact hdead,
    WeakPtrBase.lock_of_deadAt hp hdead,
    WeakPtrBase.object_of_deadAt hp hdead⟩

/-- Witness for C1: one object, one handle, destroy the factory, query. -/
theorem claim1_witness :
    WeakPtrBase.expired (⟨some 0, some 5⟩ : WeakPtrBase Nat) ⟨[some ⟨false, 0⟩]⟩ = true ∧
    WeakPtrBase.lock (⟨some 0, some 5⟩ : WeakPtrBase Nat) ⟨[some ⟨false, 0⟩]⟩ =
      (⟨none⟩, ⟨[some ⟨false, 0⟩]⟩) ∧
    WeakPtrBase.object (⟨some 0, some 5⟩ : WeakPtrBase Nat) ⟨[some ⟨false, 0⟩]⟩ = none :=
  claim1_factory_destruction_permanent Nat Nat (some 5) ⟨[]⟩ ⟨0, some 5⟩
    ⟨[some ⟨true, 0⟩]⟩ rfl ⟨some 0, some 5⟩ rfl ⟨[some ⟨true, 0⟩]⟩
    Relation.ReflTransGen.refl ⟨true, 0⟩ rfl rfl ⟨[some ⟨false, 0⟩]⟩
    Relation.ReflTransGen.refl

/-- C2: `lock()` behaves exactly as the specification describes it
(`lockSpec`): empty Guard when the linked Validity State no longer
exists; otherwise acquire the shared (read) lock, keep it inside the
returned Guard when the liveness flag is still true, else release it
immediately and return an empty Guard. -/
theorem claim2_lock_matches_spec (α : Type) (p : WeakPtrBase α) (h : Heap) :
    p.lock h = p.lockSpec h := by
  unfold WeakPtrBase.lock WeakPtrBase.lockSpec WeakRef.lockRef
  rcases hw : p.weak with _ | i
  · rfl
  · rcases hget : h.get i with _ | s <;> simp [hget]

/-- C3: the liveness flag starts `true` at construction; `invalidate()`
is the only mutator that changes it, setting it `false`; no operation
of the shared data ever sets it back to `true`, so the invalid state is
terminal. -/
theorem claim3_liveness_flag_one_shot :
    WeakPtrSharedData.init.valid = true ∧
    (∀ s : WeakPtrSharedData, (WeakPtrSharedData.invalidate s).valid = false) ∧
    (∀ (op : SDOp) (s : WeakPtrSharedData),
      s.valid = false → (SDOp.apply op s).valid = false) ∧
    (∀ (op : SDOp) (s : WeakPtrSharedData),
      op ≠ SDOp.invalidate → (SDOp.apply op s).valid = s.valid) := by
  refine ⟨rfl, fun s => rfl, ?_, ?_⟩
  · intro op s hval
    cases op <;>
      simp [SDOp.apply, WeakPtrSharedData.sharedLock,
        WeakPtrSharedData.sharedUnlock, WeakPtrSharedData.invalidate, hval]
  · intro op s hop
    cases op <;>
      simp_all [SDOp.apply, WeakPtrSharedData.sharedLock,
        WeakPtrSharedData.sharedUnlock]

/-- Witness for C3: the flag stays down across a shared lock, and an
operation other than invalidate leaves a raised flag raised. -/
theorem claim3_witness :
    (SDOp.apply SDOp.sharedLock ⟨false, 0⟩).valid = false ∧
    (SDOp.apply SDOp.sharedLock ⟨true, 0⟩).valid = (⟨true, 0⟩ : WeakPtrSharedData).valid :=
  ⟨claim3_liveness_flag_one_shot.2.2.1 SDOp.sharedLock ⟨false, 0⟩ rfl,
   claim3_liveness_flag_one_shot.2.2.2 SDOp.sharedLock ⟨true, 0⟩ (by decide)⟩

/-- C4: `expired()` returns `true` iff the linked Validity State no
longer exists (empty link or freed slot) or exists with its liveness
flag `false`; and the boolean conversion returns `true` iff `expired()`
returns `false`. -/
theorem claim4_expired_characterisation (α : Type) (p : WeakPtrBase α) (h : Heap) :
    (p.expired h = true ↔
      ((∀ i, p.weak = some i → h.get i = none) ∨
        (∃ i s, p.weak = some i ∧ h.get i = some s ∧ s.valid = false))) ∧
    (p.toBool h = true ↔ p.expired h = false) := by
  constructor
  · unfold WeakPtrBase.expired WeakRef.lockRef
    rcases hw : p.weak with _ | i
    · simp
    · rcases hget : h.get i with _ | s
      · simp [hget]
      · by_cases hv : s.valid = true <;> simp [hget, hv]
  · unfold WeakPtrBase.toBool
    cases p.expired h <;> simp

/-- C5: converting a weak reference over `Derived` to one over a
compatible `Base` copies the link and upcasts the stored pointer; the
two share the same Validity State, and in every heap the converted
handle's `expired()` equals the original's. -/
theorem claim5_covariant_conversion (α β : Type) (castPtr : α → β)
    (p : WeakPtrBase α) (h : Heap) :
    (p.convert castPtr).weak = p.weak ∧
    (p.convert castPtr).ptr = Option.map castPtr p.ptr ∧
    (p.convert castPtr).expired h = p.expired h := by
  refine ⟨rfl, rfl, ?_⟩
  unfold WeakPtrBase.expired WeakPtrBase.convert
  rfl

/-- C6 (counterexample): the claim asserts the stored raw pointer is
never null for every public way of constructing a `WeakPtr`, including
default construction — but `WeakPtr() = default` value-initialises
`ptr_` to null. -/
theorem claim6_counterexample :
    (WeakPtrBase.defaultCtor Nat).ptr = none := rfl

/-- C6 (amended): a `WeakPtr` minted by a factory wrapping a non-null
object stores a non-null pointer, and covariant conversion and move
preserve the stored pointer (so copies/moves of such handles stay
non-null); a default-constructed `WeakPtr`, by contrast, stores null. -/
theorem claim6_ptr_nonnull_amended (α β : Type) (castPtr : α → β)
    (f : WeakPtrFactory α) (p : WeakPtrBase α)
    (hobj : f.obj ≠ none) (hp : p.ptr ≠ none) :
    f.makeWeakPtr.ptr ≠ none ∧
    (p.convert castPtr).ptr ≠ none ∧
    p.movedFrom.ptr = p.ptr ∧
    (WeakPtrBase.defaultCtor α).ptr = none := by
  refine ⟨hobj, ?_, rfl, rfl⟩
  unfold WeakPtrBase.convert
  rcases hptr : p.ptr with _ | a
  · exact absurd hptr hp
  · simp [hptr]

/-- Witness for C6's amended statement at a concrete factory and handle. -/
theorem claim6_witness :
    (WeakPtrFactory.makeWeakPtr (⟨0, some 7⟩ : WeakPtrFactory Nat)).ptr ≠ none ∧
    (WeakPtrBase.convert Nat.succ (⟨none, some 1⟩ : WeakPtrBase Nat)).ptr ≠ none ∧
    (WeakPtrBase.movedFrom (⟨none, some 1⟩ : WeakPtrBase Nat)).ptr =
      (⟨none, some 1⟩ : WeakPtrBase Nat).ptr ∧
    (WeakPtrBase.defaultCtor Nat).ptr = none :=
  claim6_ptr_nonnull_amended Nat Nat Nat.succ ⟨0, some 7⟩ ⟨none, some 1⟩
    (by decide) (by decide)

/-- C7: one invocation of the callable returned by `makeWeakMethod`
first locks; with the guard held, if `object()` yields a pointer the
member operation runs on it with the arguments forwarded unchanged and
the heap is restored on guard destruction; if `object()` is null —
in particular whenever the factory slot is dead — the call is a silent
no-op: the environment is untouched and the heap is restored. -/
theorem claim7_weak_method_invocation (α ε : Type) (f : WeakPtrFactory α)
    (method : α → ε → ε) (h : Heap) (env : ε) :
    (∀ obj, (f.makeWeakPtr).object ((f.makeWeakPtr).lock h).2 = some obj →
      weakMethodInvoke f.makeWeakPtr method h env = (h, method obj env)) ∧
    ((f.makeWeakPtr).object ((f.makeWeakPtr).lock h).2 = none →
      weakMethodInvoke f.makeWeakPtr method h env = (h, env)) ∧
    (h.deadAt f.strong = true →
      weakMethodInvoke f.makeWeakPtr method h env = (h, env)) := by
  have hinv : ∀ e : ε, weakMethodInvoke f.makeWeakPtr method h env =
      (((f.makeWeakPtr).lock h).1.release ((f.makeWeakPtr).lock h).2,
        match (f.makeWeakPtr).object ((f.makeWeakPtr).lock h).2 with
        | some obj => method obj env
        | none => env) := fun _ => rfl
  refine ⟨?_, ?_, ?_⟩
  · intro obj hobj
    rw [hinv env, hobj, WeakPtrBase.release_lock]
  · intro hnone
    rw [hinv env, hnone, WeakPtrBase.release_lock]
  · intro hdead
    have hw : (f.makeWeakPtr).weak = some f.strong := rfl
    have hlock := WeakPtrBase.lock_of_deadAt hw hdead
    have hnone : (f.makeWeakPtr).object ((f.makeWeakPtr).lock h).2 = none := by
      rw [hlock]
      exact WeakPtrBase.object_of_deadAt hw hdead
    rw [hinv env, hnone, WeakPtrBase.release_lock]

/-- Witness for C7: a live factory invokes the method; the same callable
after destruction is a no-op. -/
theorem claim7_witness :
    weakMethodInvoke (WeakPtrFactory.makeWeakPtr (⟨0, some 3⟩ : WeakPtrFactory Nat))
      (fun obj env => env + obj) ⟨[some ⟨true, 0⟩]⟩ 10 = (⟨[some ⟨true, 0⟩]⟩, 13) ∧
    weakMethodInvoke (WeakPtrFactory.makeWeakPtr (⟨0, some 3⟩ : WeakPtrFactory Nat))
      (fun obj env => env + obj) ⟨[some ⟨false, 0⟩]⟩ 10 = (⟨[some ⟨false, 0⟩]⟩, 10) :=
  ⟨(claim7_weak_method_invocation Nat Nat ⟨0, some 3⟩ (fun obj env => env + obj)
      ⟨[some ⟨true, 0⟩]⟩ 10).1 3 (by decide),
   (claim7_weak_method_invocation Nat Nat ⟨0, some 3⟩ (fun obj env => env + obj)
      ⟨[some ⟨false, 0⟩]⟩ 10).2.2 (by decide)⟩

/-- C8: `expired()` is monotonic for a handle whose link (if any) names
an allocated slot: once it reports `true`, it reports `true` in every
heap reachable by any further operations.  (It is idempotent by
construction: the query mutates nothing.) -/
theorem claim8_expired_monotonic (α : Type) (p : WeakPtrBase α) (h h2 : Heap)
    (hwf : ∀ i, p.weak = some i → i < h.size)
    (hexp : p.expired h = true) (hreach : Reach h h2) :
    p.expired h2 = true := by
  rcases hw : p.weak with _ | i
  · exact WeakPtrBase.expired_of_weak_none hw
  · have hdead : h.deadAt i = true := by
      rw [WeakPtrBase.expired_eq_deadAt hw] at hexp
      exact hexp
    rw [WeakPtrBase.expired_eq_deadAt hw]
    exact reach_deadAt_preserved hreach (hwf i hw) hdead

/-- Witness for C8: an expired handle on a one-slot heap, after a
shared-lock/unlock round trip by some other thread, still expired. -/
theorem claim8_witness :
    WeakPtrBase.expired (⟨some 0, some 1⟩ : WeakPtrBase Nat)
      (Heap.set ⟨[some ⟨false, 0⟩]⟩ 0 (WeakPtrSharedData.sharedLock ⟨false, 0⟩)) = true :=
  claim8_expired_monotonic Nat ⟨some 0, some 1⟩ ⟨[some ⟨false, 0⟩]⟩
    (Heap.set ⟨[some ⟨false, 0⟩]⟩ 0 (WeakPtrSharedData.sharedLock ⟨false, 0⟩))
    (fun i hi => by cases hi; decide) (by decide)
    (Relation.ReflTransGen.single
      (Step.sharedLock ⟨[some ⟨false, 0⟩]⟩ 0 ⟨false, 0⟩ rfl))

/-- C9: a non-empty Guard produced by `lock()` certifies that the
Validity State was observed valid at acquisition and that the Guard
holds its read-lock (the shared-hold count went up by one, the flag
still raised) — exactly the invariant `assert(!strong_ || strong_->valid())`
checks in the Guard constructor, which therefore never fires for Guards
produced by `lock()`. -/
theorem claim9_guard_invariant (α : Type) (p : WeakPtrBase α) (h : Heap)
    (i : Nat) (hg : (p.lock h).1.strong = some i) :
    ∃ s, h.get i = some s ∧ s.valid = true ∧
      (p.lock h).2.get i = some s.sharedLock ∧
      s.sharedLock.readers = s.readers + 1 ∧
      s.sharedLock.valid = true := by
  rcases WeakPtrBase.lock_cases p h with ⟨heq, _⟩ | ⟨j, s, hw, hget, hv, heq⟩
  · rw [heq] at hg
    exact absurd hg (by simp)
  · rw [heq] at hg
    have hji : j = i := by simpa using hg
    subst hji
    refine ⟨s, hget, hv, ?_, rfl, by simpa [WeakPtrSharedData.sharedLock] using hv⟩
    rw [heq]
    exact Heap.get_set_self _ (Heap.lt_size_of_get_eq_some hget)

/-- Witness for C9: locking a live one-slot heap yields a guard on slot
0 whose acquisition invariant is checked concretely. -/
theorem claim9_witness :
    ∃ s, Heap.get ⟨[some ⟨true, 0⟩]⟩ 0 = some s ∧ s.valid = true ∧
      (WeakPtrBase.lock (⟨some 0, some 2⟩ : WeakPtrBase Nat) ⟨[some ⟨true, 0⟩]⟩).2.get 0 =
        some s.sharedLock ∧
      s.sharedLock.readers = s.readers + 1 ∧
      s.sharedLock.valid = true :=
  claim9_guard_invariant Nat ⟨some 0, some 2⟩ ⟨[some ⟨true, 0⟩]⟩ 0 (by decide)

/-- C10: a default-constructed `WeakPtr` and a moved-from `WeakPtr` have
an empty link and behave as permanently expired at the query interface:
`expired()` is true, the boolean conversion is false, `lock()` yields
an empty Guard leaving the heap untouched, `object()` is null; the
dereference assertion (`operator->`) is the one remaining contract
violation. -/
theorem claim10_empty_handle_queries (α : Type) (p q : WeakPtrBase α) (h : Heap)
    (hq : q = WeakPtrBase.defaultCtor α ∨ q = p.movedFrom) :
    q.weak = none ∧ q.expired h = true ∧ q.toBool h = false ∧
    q.lock h = (⟨none⟩, h) ∧ q.object h = none ∧ q.arrowAssert h = false := by
  have hw : q.weak = none := by
    rcases hq with rfl | rfl <;> rfl
  refine ⟨hw, WeakPtrBase.expired_of_weak_none hw, ?_,
    WeakPtrBase.lock_of_weak_none hw, WeakPtrBase.object_of_weak_none hw, ?_⟩
  · unfold WeakPtrBase.toBool
    rw [WeakPtrBase.expired_of_weak_none hw]
    rfl
  · unfold WeakPtrBase.arrowAssert
    rw [WeakPtrBase.object_of_weak_none hw]
    rfl

/-- Witness for C10 at the default-constructed handle on the empty heap. -/
theorem claim10_witness :
    (WeakPtrBase.defaultCtor Nat).weak = none ∧
    (WeakPtrBase.defaultCtor Nat).expired ⟨[]⟩ = true ∧
    (WeakPtrBase.defaultCtor Nat).toBool ⟨[]⟩ = false ∧
    (WeakPtrBase.defaultCtor Nat).lock ⟨[]⟩ = (⟨none⟩, ⟨[]⟩) ∧
    (WeakPtrBase.defaultCtor Nat).object ⟨[]⟩ = none ∧
    (WeakPtrBase.defaultCtor Nat).arrowAssert ⟨[]⟩ = false :=
  claim10_empty_handle_queries Nat ⟨some 0, some 1⟩ (WeakPtrBase.defaultCtor Nat)
    ⟨[]⟩ (Or.inl rfl)

end Mapbox
